import Mathlib

/-!
Shallow embedding of the ledger-consistency logic of the tracker-budget
application: the balance maintainer (add-transaction / delete-transaction
screens), the period aggregator (reports screen), the budget evaluator
(budgets screen) and account provisioning (auth context).

Monetary values are modelled as rationals; JS objects used as string-keyed
maps are modelled either as functions `String → Option _` (when the code
never enumerates their keys) or as insertion-ordered association lists
(when key enumeration order matters, as JS objects enumerate string keys
in insertion order).
-/

/-- Transaction type, `'income' | 'expense'` in the source. -/
inductive TxType where
  | income
  | expense
deriving DecidableEq, Repr

/-- A transaction row as the balance-maintenance code uses it:
id, owning account, amount and type. -/
structure LedgerTx where
  id : Nat
  accountId : Nat
  amount : ℚ
  ttype : TxType
deriving DecidableEq, Repr

/-- The remote store as the balance maintainer sees it: per-account
balances plus the transactions table. -/
structure Store where
  balances : Nat → ℚ
  transactions : List LedgerTx

/-- `handleSubmit` in src/app/add-transaction.tsx, lines 94-116, after
validation: insert the transaction row, read the owning account's balance,
compute `newBalance = balance ± amount` depending on the type, and write
it back to that account. -/
def handleSubmitApply (s : Store) (t : LedgerTx) : Store :=
  let s1 : Store := { s with transactions := s.transactions ++ [t] }
  let newBalance : ℚ :=
    if t.ttype = TxType.income then s1.balances t.accountId + t.amount
    else s1.balances t.accountId - t.amount
  { s1 with balances := fun a => if a = t.accountId then newBalance else s1.balances a }

/-- `handleDeleteTransaction` in src/app/(tabs)/transactions.tsx, lines
85-109: look the transaction up in the loaded list (early return when
absent); read the owning account's balance (`accountRead` is that remote
read's result, `none` when it fails or returns no row); when the read
succeeded, write back the inverse adjustment; in every case afterwards,
delete the transaction row by id. -/
def handleDeleteTransaction (s : Store) (transactionId : Nat) (accountRead : Option ℚ) : Store :=
  match s.transactions.find? (fun t => t.id == transactionId) with
  | none => s
  | some transaction =>
    let balances1 : Nat → ℚ :=
      match accountRead with
      | some balance =>
        let newBalance : ℚ :=
          if transaction.ttype = TxType.income then balance - transaction.amount
          else balance + transaction.amount
        fun a => if a = transaction.accountId then newBalance else s.balances a
      | none => s.balances
    { balances := balances1
      transactions := s.transactions.filter (fun u => !(u.id == transactionId)) }

/-- `getProgressPercentage` in the budgets screen:
`Math.min((spent / budget) * 100, 100)`. -/
def getProgressPercentage (spent budget : ℚ) : ℚ :=
  min (spent / budget * 100) 100

/-- `getProgressColor` in the budgets screen: red at or above 100,
amber at or above 80, green otherwise. -/
def getProgressColor (percentage : ℚ) : String :=
  if 100 ≤ percentage then "#EF4444"
  else if 80 ≤ percentage then "#F59E0B"
  else "#10B981"

/-- Budget status as the spec names the three threshold bands the budgets
screen renders (red bar / "Budget exceeded" badge at percentage ≥ 100,
amber bar / "Almost there" badge at percentage ≥ 80, green otherwise). -/
inductive BudgetStatus where
  | ok
  | warning
  | exceeded
deriving DecidableEq, Repr

/-- The status the budgets screen encodes through `getProgressColor` and
the warning badge, both driven by the clamped percentage. -/
def budgetStatus (spent amount : ℚ) : BudgetStatus :=
  let percentage := getProgressPercentage spent amount
  if 100 ≤ percentage then BudgetStatus.exceeded
  else if 80 ≤ percentage then BudgetStatus.warning
  else BudgetStatus.ok

/-- The joined category columns a report row carries:
`category:categories(name, color)`. -/
structure CatRef where
  name : String
  color : String
deriving DecidableEq, Repr

/-- A transaction row as the reports screen's aggregate query returns it:
`amount, type, category:categories(name, color)` (the join is null when
the transaction has no category). -/
structure RawTx where
  amount : ℚ
  ttype : TxType
  category : Option CatRef
deriving DecidableEq, Repr

/-- `income` in `fetchReportData`: sum of amounts over rows of type income. -/
def totalIncome (ts : List RawTx) : ℚ :=
  ((ts.filter (fun t => t.ttype == TxType.income)).map (fun t => t.amount)).sum

/-- `expense` in `fetchReportData`: sum of amounts over rows of type expense. -/
def totalExpense (ts : List RawTx) : ℚ :=
  ((ts.filter (fun t => t.ttype == TxType.expense)).map (fun t => t.amount)).sum

/-- `netAmount = totalIncome - totalExpense` (reports screen). -/
def netAmount (ts : List RawTx) : ℚ :=
  totalIncome ts - totalExpense ts

/-- `savingsRate = totalIncome > 0 ? ((netAmount / totalIncome) * 100).toFixed(1) : 0`;
modelled as the exact rational before the one-decimal display formatting. -/
def savingsRate (ts : List RawTx) : ℚ :=
  if totalIncome ts > 0 then netAmount ts / totalIncome ts * 100 else 0

/-- `t.category?.name || 'Uncategorized'`: the JS `||` falls back when the
name is the empty string (and the code only evaluates this after filtering
to rows whose category join is non-null). -/
def catName (c : CatRef) : String :=
  if c.name = "" then "Uncategorized" else c.name

/-- `t.category?.color || '#6B7280'` on a non-null category join. -/
def catColor (c : CatRef) : String :=
  if c.color = "" then "#6B7280" else c.color

/-- One step of building `categoryMap`: if the key is present, add the
amount to its entry; otherwise append a fresh entry `{amount, color}`.
JS objects enumerate string keys in insertion order, hence the
insertion-ordered association list `(key, amount, color)`. -/
def addToMap (m : List (String × ℚ × String)) (key : String) (amt : ℚ) (color : String) :
    List (String × ℚ × String) :=
  if m.any (fun e => e.1 == key) then
    m.map (fun e => if e.1 == key then (e.1, e.2.1 + amt, e.2.2) else e)
  else
    m ++ [(key, amt, color)]

/-- Whether a report row enters the category breakdown:
`t.type === 'expense' && t.category` (rows whose category join is null are
filtered out before grouping). -/
def inBreakdown (t : RawTx) : Bool :=
  t.ttype == TxType.expense && t.category.isSome

/-- The `forEach` body of the grouping loop: a filtered row always has a
non-null category join, whose display name and color key the map entry. -/
def catStep (m : List (String × ℚ × String)) (t : RawTx) : List (String × ℚ × String) :=
  match t.category with
  | some c => addToMap m (catName c) t.amount (catColor c)
  | none => m

/-- `categoryMap` in `fetchReportData`, lines 71-83: fold the filtered rows
into the keyed map. -/
def categoryMap (ts : List RawTx) : List (String × ℚ × String) :=
  (ts.filter inBreakdown).foldl catStep []

/-- One entry of the rendered category breakdown. -/
structure CategorySpending where
  category : String
  amount : ℚ
  color : String
  percentage : ℚ
deriving DecidableEq, Repr

/-- Insert one element into a list already sorted descending by amount,
placing it before the first element of smaller-or-equal amount (the
element being inserted precedes, in the original array, every element of
the list it is inserted into). -/
def insertDesc (x : CategorySpending) : List CategorySpending → List CategorySpending
  | [] => [x]
  | y :: ys => if y.amount ≤ x.amount then x :: y :: ys else y :: insertDesc x ys

/-- Stable sort descending by amount (`.sort((a, b) => b.amount - a.amount)`,
stable per the JS specification). -/
def sortDesc : List CategorySpending → List CategorySpending
  | [] => []
  | x :: xs => insertDesc x (sortDesc xs)

/-- The mapped, not yet sorted, `categoryArray`: one entry per key of
`categoryMap` in encounter order, with
`percentage = expense > 0 ? amount / expense * 100 : 0`. -/
def categoryArrayUnsorted (ts : List RawTx) : List CategorySpending :=
  (categoryMap ts).map (fun e =>
    { category := e.1
      amount := e.2.1
      color := e.2.2
      percentage := if totalExpense ts > 0 then e.2.1 / totalExpense ts * 100 else 0 })

/-- `categoryArray` in `fetchReportData`, lines 85-92: map the keys then
sort descending by summed amount. -/
def categoryArray (ts : List RawTx) : List CategorySpending :=
  sortDesc (categoryArrayUnsorted ts)

/-- The month labels of the year view, in calendar order. -/
def monthNames : List String :=
  ["Jan", "Feb", "Mar", "Apr", "May", "Jun", "Jul", "Aug", "Sep", "Oct", "Nov", "Dec"]

/-- The short month label of a calendar month
(`new Date(t.date).toLocaleDateString('en-US', \x7b month: 'short' \x7d)`). -/
def monthName (i : Fin 12) : String :=
  monthNames.getD i.val ""

/-- A transaction row as the year-view query returns it (`amount, type,
date`), the date represented by the calendar month the code extracts from
it — the only use this computation makes of the date. -/
structure DatedTx where
  amount : ℚ
  ttype : TxType
  month : Fin 12
deriving DecidableEq, Repr

/-- One step of building `monthlyMap`, lines 107-117: ensure the month's
entry exists (initialised to zeros) and add the amount to its income or
expense field by type. The JS object is modelled as a function, since this
code never enumerates the map's keys. -/
def stepMonthly (m : String → Option (ℚ × ℚ)) (t : DatedTx) : String → Option (ℚ × ℚ) :=
  let key := monthName t.month
  let cur := (m key).getD (0, 0)
  let updated :=
    if t.ttype = TxType.income then (cur.1 + t.amount, cur.2) else (cur.1, cur.2 + t.amount)
  fun k => if k = key then some updated else m k

/-- `monthlyMap` built over the fetched year transactions. -/
def monthlyMap (ts : List DatedTx) : String → Option (ℚ × ℚ) :=
  ts.foldl stepMonthly (fun _ => none)

/-- One entry of the rendered monthly comparison array. -/
structure MonthlyData where
  month : String
  income : ℚ
  expense : ℚ
deriving DecidableEq, Repr

/-- `monthlyArray`, lines 119-124: map the fixed twelve-name list, pulling
each month's sums from `monthlyMap` with 0 as default. -/
def monthlyArray (ts : List DatedTx) : List MonthlyData :=
  monthNames.map (fun name =>
    { month := name
      income := ((monthlyMap ts name).map (fun v => v.1)).getD 0
      expense := ((monthlyMap ts name).map (fun v => v.2)).getD 0 })

/-- Income bucketed into one calendar month: the sum the spec expects at
that month of the year view. -/
def sumIncomeInMonth (ts : List DatedTx) (i : Fin 12) : ℚ :=
  ((ts.filter (fun t => t.ttype == TxType.income && t.month == i)).map (fun t => t.amount)).sum

/-- Expense bucketed into one calendar month. -/
def sumExpenseInMonth (ts : List DatedTx) (i : Fin 12) : ℚ :=
  ((ts.filter (fun t => t.ttype == TxType.expense && t.month == i)).map (fun t => t.amount)).sum


/-- A profile row as `signUp` in src/contexts/AuthContext.tsx inserts it. -/
structure ProfileRow where
  id : Nat
  full_name : String
  currency : String
deriving DecidableEq, Repr

/-- A category row as `signUp` inserts it. -/
structure CategoryRow where
  user_id : Nat
  name : String
  ctype : TxType
  icon : String
  color : String
  is_system : Bool
deriving DecidableEq, Repr

/-- `defaultCategories` in `signUp`, lines 60-69, as (name, type, icon,
color, is_system) tuples. -/
def defaultCategories : List (String × TxType × String × String × Bool) :=
  [ ("Salary", TxType.income, "briefcase", "#10B981", true)
  , ("Freelance", TxType.income, "laptop", "#3B82F6", true)
  , ("Food & Dining", TxType.expense, "utensils", "#EF4444", true)
  , ("Transportation", TxType.expense, "car", "#F59E0B", true)
  , ("Shopping", TxType.expense, "shopping-bag", "#8B5CF6", true)
  , ("Entertainment", TxType.expense, "film", "#EC4899", true)
  , ("Bills & Utilities", TxType.expense, "receipt", "#6366F1", true)
  , ("Healthcare", TxType.expense, "heart", "#14B8A6", true) ]

/-- The category rows `signUp` inserts for a new user:
`defaultCategories.map(cat => ({...cat, user_id}))`. -/
def seedCategoryRows (uid : Nat) : List CategoryRow :=
  defaultCategories.map (fun c =>
    { user_id := uid, name := c.1, ctype := c.2.1, icon := c.2.2.1
      color := c.2.2.2.1, is_system := c.2.2.2.2 })

/-- `signUp` in src/contexts/AuthContext.tsx, lines 47-80: the identity
call's outcome is `authResult` (`some uid` when it returned no error and a
user). On success the provisioning inserts run: one profile row with
currency "USD" and the eight seeded category rows; otherwise nothing is
inserted. -/
def signUpProvision (authResult : Option Nat) (fullName : String) :
    Option (ProfileRow × List CategoryRow) :=
  match authResult with
  | some uid => some ({ id := uid, full_name := fullName, currency := "USD" }, seedCategoryRows uid)
  | none => none

/-- JS `parseFloat` as the submit handler exercises it on the amount text
field: parse an optional sign followed by the longest decimal-digit prefix
and an optional fraction part; `none` models NaN (no leading digit). -/
def parseDecimal (s : String) : Option ℚ :=
  let core : List Char → Option ℚ := fun cs =>
    let intPart := cs.takeWhile Char.isDigit
    if intPart.isEmpty then none
    else
      let n : Nat := intPart.foldl (fun acc c => acc * 10 + (c.toNat - 48)) 0
      match cs.drop intPart.length with
      | '.' :: frac =>
        let fracDigits := frac.takeWhile Char.isDigit
        let f : Nat := fracDigits.foldl (fun acc c => acc * 10 + (c.toNat - 48)) 0
        some ((n : ℚ) + (f : ℚ) / (10 : ℚ) ^ fracDigits.length)
      | _ => some (n : ℚ)
  match s.toList with
  | '-' :: rest => (core rest).map (fun q => -q)
  | cs => core cs

/-- The form state `handleSubmit` in src/app/add-transaction.tsx validates:
the raw amount and description texts, the selected account (`none` models
null) and the raw date text. -/
structure SubmitInput where
  amount : String
  description : String
  account : Option Nat
  date : String
deriving DecidableEq, Repr

/-- The transaction row the submit handler sends to the remote insert
(the fields the validation question turns on). -/
structure TxInsertRow where
  account_id : Nat
  amount : ℚ
  date : String
deriving DecidableEq, Repr

/-- Outcome of the submit handler's pre-remote phase: a validation
rejection, or the row it proceeds to insert remotely. -/
inductive SubmitResult where
  | rejected (msg : String)
  | proceed (row : TxInsertRow)
deriving DecidableEq, Repr

/-- `handleSubmit`, lines 79-103: reject when amount, description or
account is missing; reject when `parseFloat(amount)` is NaN or ≤ 0;
otherwise issue the remote insert with the form's date as typed. -/
def submitStep (inp : SubmitInput) : SubmitResult :=
  if inp.amount == "" || inp.description == "" || inp.account.isNone then
    SubmitResult.rejected "Please fill in all required fields"
  else
    match parseDecimal inp.amount, inp.account with
    | none, _ => SubmitResult.rejected "Please enter a valid amount"
    | some a, some acc =>
      if a ≤ 0 then SubmitResult.rejected "Please enter a valid amount"
      else SubmitResult.proceed { account_id := acc, amount := a, date := inp.date }
    | some _, none => SubmitResult.rejected "Please fill in all required fields"


/-- A store with one account (id 0) holding balance 100 and an empty
transactions table, used to instantiate the balance theorems. -/
def demoStore : Store := { balances := fun _ => 100, transactions := [] }

/-- A concrete income transaction of 50 on account 0. -/
def demoTx : LedgerTx := { id := 1, accountId := 0, amount := 50, ttype := TxType.income }

/-- A store whose transactions table already holds `demoTx`. -/
def demoStore2 : Store := { balances := fun _ => 100, transactions := [demoTx] }

/-- C1: after `applyCreate` (the post-validation tail of `handleSubmit`),
the owning account's stored balance equals the prior balance plus the
amount for an income transaction and minus the amount for an expense
transaction, and every other account's balance is unchanged. -/
theorem C1_applyCreate_balance (s : Store) (t : LedgerTx) :
    ((handleSubmitApply s t).balances t.accountId =
      if t.ttype = TxType.income then s.balances t.accountId + t.amount
      else s.balances t.accountId - t.amount)
    ∧ ∀ a, a ≠ t.accountId → (handleSubmitApply s t).balances a = s.balances a := by
  refine ⟨?_, ?_⟩
  · simp [handleSubmitApply]
  · intro a ha
    simp [handleSubmitApply, ha]

/-- C1 witness: the other-accounts-unchanged clause of
`C1_applyCreate_balance` at a concrete store and transaction. -/
theorem C1_applyCreate_balance_witness :
    (1 : Nat) ≠ demoTx.accountId
    ∧ (handleSubmitApply demoStore demoTx).balances 1 = demoStore.balances 1 :=
  ⟨by decide, (C1_applyCreate_balance demoStore demoTx).2 1 (by decide)⟩

/-- `find?` skips a prefix on which the predicate is false everywhere. -/
theorem find?_append_of_forall_ne {l1 l2 : List LedgerTx} {p : LedgerTx → Bool}
    (h : ∀ u ∈ l1, p u = false) : (l1 ++ l2).find? p = l2.find? p := by
  induction l1 with
  | nil => rfl
  | cons x xs ih =>
    rw [List.cons_append, List.find?_cons_of_neg _ (by simp [h x (by simp)]),
      ih (fun u hu => h u (by simp [hu]))]

/-- C2: creating a transaction and then deleting it (transaction id fresh,
and the delete's balance read returning the balance the create wrote)
restores every account balance to its pre-insertion value. -/
theorem C2_create_delete_roundtrip (s : Store) (t : LedgerTx)
    (hfresh : ∀ u ∈ s.transactions, u.id ≠ t.id) :
    (handleDeleteTransaction (handleSubmitApply s t) t.id
        (some ((handleSubmitApply s t).balances t.accountId))).balances
      = s.balances := by
  have hfind : ((handleSubmitApply s t).transactions).find? (fun u => u.id == t.id) = some t := by
    show ((s.transactions ++ [t]).find? fun u => u.id == t.id) = some t
    rw [find?_append_of_forall_ne (fun u hu => by simp [hfresh u hu])]
    simp [List.find?]
  funext a
  unfold handleDeleteTransaction
  rw [hfind]
  by_cases ha : a = t.accountId
  · subst ha
    cases htt : t.ttype <;> simp [handleSubmitApply, htt]
  · simp [handleSubmitApply, ha]

/-- C2 witness: `C2_create_delete_roundtrip` at the concrete demo store
and transaction. -/
theorem C2_create_delete_roundtrip_witness :
    (handleDeleteTransaction (handleSubmitApply demoStore demoTx) demoTx.id
        (some ((handleSubmitApply demoStore demoTx).balances demoTx.accountId))).balances
      = demoStore.balances :=
  C2_create_delete_roundtrip demoStore demoTx (by intro u hu; simp [demoStore] at hu)

/-- C10: once the transaction is found in the loaded list, the
remove-from-ledger step runs for every outcome of the balance read, and a
failed balance read (`none`) leaves every balance untouched while the
transaction row is still deleted. -/
theorem C10_delete_unconditional (s : Store) (tid : Nat) (u : LedgerTx)
    (hfind : s.transactions.find? (fun v => v.id == tid) = some u) :
    (∀ r : Option ℚ, (handleDeleteTransaction s tid r).transactions
        = s.transactions.filter (fun v => !(v.id == tid)))
    ∧ (handleDeleteTransaction s tid none).balances = s.balances := by
  constructor
  · intro r
    unfold handleDeleteTransaction
    rw [hfind]
  · unfold handleDeleteTransaction
    rw [hfind]

/-- C10 witness: `C10_delete_unconditional` at the concrete one-transaction
store with a failed balance read. -/
theorem C10_delete_unconditional_witness :
    (handleDeleteTransaction demoStore2 1 none).transactions
        = demoStore2.transactions.filter (fun v => !(v.id == 1))
    ∧ (handleDeleteTransaction demoStore2 1 none).balances = demoStore2.balances := by
  have h := C10_delete_unconditional demoStore2 1 demoTx (by rfl)
  exact ⟨h.1 none, h.2⟩

/-- C7: for a positive budget ceiling, the displayed percentage is the
clamped `min(spent / amount * 100, 100)` — exactly 100 once spent reaches
the ceiling and never above 100 — and the status bands are: exceeded iff
`spent ≥ amount`, warning iff `0.8 * amount ≤ spent < amount`, ok
otherwise. -/
theorem C7_budget_evaluator (spent amount : ℚ) (h : 0 < amount) :
    getProgressPercentage spent amount = min (spent / amount * 100) 100
    ∧ (amount ≤ spent → getProgressPercentage spent amount = 100)
    ∧ getProgressPercentage spent amount ≤ 100
    ∧ (budgetStatus spent amount = BudgetStatus.exceeded ↔ amount ≤ spent)
    ∧ (budgetStatus spent amount = BudgetStatus.warning ↔
        4 / 5 * amount ≤ spent ∧ spent < amount)
    ∧ (budgetStatus spent amount = BudgetStatus.ok ↔ spent < 4 / 5 * amount) := by
  have h100 : (100 : ℚ) ≤ spent / amount * 100 ↔ amount ≤ spent := by
    rw [div_mul_eq_mul_div, le_div_iff₀ h]
    constructor <;> intro hx <;> linarith
  have h80 : (80 : ℚ) ≤ spent / amount * 100 ↔ 4 / 5 * amount ≤ spent := by
    rw [div_mul_eq_mul_div, le_div_iff₀ h]
    constructor <;> intro hx <;> linarith
  have hminle : getProgressPercentage spent amount ≤ 100 := min_le_right _ _
  have hp100 : 100 ≤ getProgressPercentage spent amount ↔ amount ≤ spent := by
    unfold getProgressPercentage
    rw [le_min_iff]
    simp [h100]
  have hp80 : 80 ≤ getProgressPercentage spent amount ↔ 4 / 5 * amount ≤ spent := by
    unfold getProgressPercentage
    rw [le_min_iff]
    constructor
    · intro hx
      exact h80.mp hx.1
    · intro hx
      exact ⟨h80.mpr hx, by norm_num⟩
  have hstat : budgetStatus spent amount =
      (if 100 ≤ getProgressPercentage spent amount then BudgetStatus.exceeded
       else if 80 ≤ getProgressPercentage spent amount then BudgetStatus.warning
       else BudgetStatus.ok) := rfl
  refine ⟨rfl, fun hs => le_antisymm hminle (hp100.mpr hs), hminle, ?_, ?_, ?_⟩
  · rw [hstat]
    split_ifs with h1 h2
    · simp [hp100.mp h1]
    · simp only [hp100] at h1
      simp [h1]
    · simp only [hp100] at h1
      simp [h1]
  · rw [hstat]
    split_ifs with h1 h2
    · simp only [hp100] at h1
      constructor
      · intro hx
        simp at hx
      · intro hx
        exact absurd h1 (not_le.mpr hx.2)
    · simp only [hp100] at h1
      simp only [hp80] at h2
      simp [h2, not_le.mp h1]
    · simp only [hp80] at h2
      simp [h2]
  · rw [hstat]
    split_ifs with h1 h2
    · simp only [hp100] at h1
      constructor
      · intro hx
        simp at hx
      · intro hx
        exact absurd h1 (by linarith)
    · simp only [hp80] at h2
      constructor
      · intro hx
        simp at hx
      · intro hx
        exact absurd h2 (not_le.mpr hx)
    · simp only [hp80, not_le] at h2
      simp [h2]

/-- C7 witness: at ceiling 200 and spend 210, the percentage clamps to
exactly 100. -/
theorem C7_budget_evaluator_witness :
    (0 : ℚ) < 200 ∧ getProgressPercentage 210 200 = 100 :=
  ⟨by norm_num, (C7_budget_evaluator 210 200 (by norm_num)).2.1 (by norm_num)⟩

/-- C5: the savings rate is `net / income * 100` whenever income is
positive and exactly 0 when income is 0 (no division by zero is ever
performed on the rationals), and net is always `totalIncome - totalExpense`. -/
theorem C5_savings_rate (ts : List RawTx) :
    (0 < totalIncome ts → savingsRate ts = netAmount ts / totalIncome ts * 100)
    ∧ (totalIncome ts = 0 → savingsRate ts = 0)
    ∧ totalIncome ts - totalExpense ts = netAmount ts := by
  refine ⟨fun h => ?_, fun h => ?_, rfl⟩
  · rw [savingsRate, if_pos h]
  · rw [savingsRate, if_neg (by rw [h]; exact lt_irrefl 0)]

/-- A report row list with a single income transaction of 100. -/
def demoIncomeTxs : List RawTx := [{ amount := 100, ttype := TxType.income, category := none }]

/-- C5 witness: both branches of `C5_savings_rate`, on a one-income-row
list and on the empty list. -/
theorem C5_savings_rate_witness :
    (0 < totalIncome demoIncomeTxs
      ∧ savingsRate demoIncomeTxs = netAmount demoIncomeTxs / totalIncome demoIncomeTxs * 100)
    ∧ (totalIncome ([] : List RawTx) = 0 ∧ savingsRate ([] : List RawTx) = 0) := by
  have hpos : 0 < totalIncome demoIncomeTxs := by
    norm_num [totalIncome, demoIncomeTxs, List.filter]
  exact ⟨⟨hpos, (C5_savings_rate demoIncomeTxs).1 hpos⟩, rfl, (C5_savings_rate []).2.1 rfl⟩

/-- C8: a successful signup provisions exactly one profile row with
currency defaulting to "USD" and exactly the eight system categories —
Salary and Freelance as income, Food & Dining, Transportation, Shopping,
Entertainment, Bills & Utilities and Healthcare as expense — each flagged
system and each carrying a (non-empty) color. -/
theorem C8_provisioning (uid : Nat) (fullName : String) :
    signUpProvision (some uid) fullName
      = some ({ id := uid, full_name := fullName, currency := "USD" }, seedCategoryRows uid)
    ∧ (seedCategoryRows uid).length = 8
    ∧ (seedCategoryRows uid).map (fun c => (c.name, c.ctype))
      = [("Salary", TxType.income), ("Freelance", TxType.income),
         ("Food & Dining", TxType.expense), ("Transportation", TxType.expense),
         ("Shopping", TxType.expense), ("Entertainment", TxType.expense),
         ("Bills & Utilities", TxType.expense), ("Healthcare", TxType.expense)]
    ∧ (seedCategoryRows uid).all (fun c => c.is_system && !(c.color == "")) = true :=
  ⟨rfl, rfl, rfl, rfl⟩

/-- C9 counterexample: a submission whose date field is not a date at all
("not-a-date") passes validation and proceeds to the remote insert
carrying that date — the handler never validates the date, contradicting
the claim that a malformed date is rejected before any remote call. -/
theorem C9_counterexample :
    submitStep { amount := "50", description := "lunch", account := some 0, date := "not-a-date" }
      = SubmitResult.proceed { account_id := 0, amount := 50, date := "not-a-date" } := by
  decide

/-- C9 (amended): a submission with a missing required field (amount,
description or account), a non-numeric amount, or a non-positive amount is
rejected with a validation error before any remote call; the date is not
validated. -/
theorem C9_validation (inp : SubmitInput)
    (h : inp.amount = "" ∨ inp.description = "" ∨ inp.account = none
        ∨ parseDecimal inp.amount = none
        ∨ ∃ a, parseDecimal inp.amount = some a ∧ a ≤ 0) :
    ∃ msg, submitStep inp = SubmitResult.rejected msg := by
  unfold submitStep
  by_cases hc : (inp.amount == "" || inp.description == "" || inp.account.isNone) = true
  · rw [if_pos hc]
    exact ⟨_, rfl⟩
  · rw [if_neg hc]
    rcases hA : inp.account with _ | acc
    · exact absurd (by simp [hA]) hc
    · rcases hp : parseDecimal inp.amount with _ | a
      · exact ⟨"Please enter a valid amount", rfl⟩
      · have ha : a ≤ 0 := by
          rcases h with h | h | h | h | ⟨b, hb, hble⟩
          · exact absurd (by simp [h]) hc
          · exact absurd (by simp [h]) hc
          · rw [h] at hA
            cases hA
          · rw [h] at hp
            cases hp
          · rw [hb] at hp
            injection hp with he
            rw [he] at hble
            exact hble
        exact ⟨"Please enter a valid amount", by simp [ha]⟩

/-- A submission with the amount field left empty. -/
def demoBadInput : SubmitInput :=
  { amount := "", description := "x", account := some 0, date := "2024-01-01" }

/-- C9 witness: `C9_validation` on a submission missing its amount. -/
theorem C9_validation_witness :
    demoBadInput.amount = ""
    ∧ ∃ msg, submitStep demoBadInput = SubmitResult.rejected msg :=
  ⟨rfl, C9_validation demoBadInput (Or.inl rfl)⟩

/-- The income component stored for key `k` in a monthly map, with the
renderer's `|| 0` default. -/
def incomeAt (m : String → Option (ℚ × ℚ)) (k : String) : ℚ :=
  ((m k).map (fun v => v.1)).getD 0

/-- The expense component stored for key `k` in a monthly map. -/
def expenseAt (m : String → Option (ℚ × ℚ)) (k : String) : ℚ :=
  ((m k).map (fun v => v.2)).getD 0

theorem incomeAt_stepMonthly (m : String → Option (ℚ × ℚ)) (t : DatedTx) (k : String) :
    incomeAt (stepMonthly m t) k
      = incomeAt m k
        + (if t.ttype == TxType.income && monthName t.month == k then t.amount else 0) := by
  unfold incomeAt stepMonthly
  by_cases hk : k = monthName t.month
  · subst hk
    cases htt : t.ttype <;> cases hmk : m (monthName t.month) <;> simp [hmk]
  · have hkb : (monthName t.month == k) = false := by
      simp [Ne.symm hk]
    simp [hk, hkb]

theorem expenseAt_stepMonthly (m : String → Option (ℚ × ℚ)) (t : DatedTx) (k : String) :
    expenseAt (stepMonthly m t) k
      = expenseAt m k
        + (if t.ttype == TxType.expense && monthName t.month == k then t.amount else 0) := by
  unfold expenseAt stepMonthly
  by_cases hk : k = monthName t.month
  · subst hk
    cases htt : t.ttype <;> cases hmk : m (monthName t.month) <;> simp [hmk]
  · have hkb : (monthName t.month == k) = false := by
      simp [Ne.symm hk]
    simp [hk, hkb]

theorem incomeAt_foldl (ts : List DatedTx) (m : String → Option (ℚ × ℚ)) (k : String) :
    incomeAt (ts.foldl stepMonthly m) k
      = incomeAt m k
        + ((ts.filter (fun t => t.ttype == TxType.income && monthName t.month == k)).map
            (fun t => t.amount)).sum := by
  induction ts generalizing m with
  | nil => simp
  | cons t ts ih =>
    rw [List.foldl_cons, ih, incomeAt_stepMonthly, List.filter_cons]
    by_cases hcond : (t.ttype == TxType.income && monthName t.month == k) = true
    · simp [hcond]
      ring
    · simp [hcond]

theorem expenseAt_foldl (ts : List DatedTx) (m : String → Option (ℚ × ℚ)) (k : String) :
    expenseAt (ts.foldl stepMonthly m) k
      = expenseAt m k
        + ((ts.filter (fun t => t.ttype == TxType.expense && monthName t.month == k)).map
            (fun t => t.amount)).sum := by
  induction ts generalizing m with
  | nil => simp
  | cons t ts ih =>
    rw [List.foldl_cons, ih, expenseAt_stepMonthly, List.filter_cons]
    by_cases hcond : (t.ttype == TxType.expense && monthName t.month == k) = true
    · simp [hcond]
      ring
    · simp [hcond]

theorem monthName_beq : ∀ a b : Fin 12, (monthName a == monthName b) = (a == b) := by
  decide

theorem monthNames_eq_map : monthNames = (List.finRange 12).map monthName := by
  decide

/-- The year-view transactions of the spec's scenario: income 500 in March
and expense 200 in July. -/
def marchJulyTxs : List DatedTx :=
  [ { amount := 500, ttype := TxType.income, month := 2 }
  , { amount := 200, ttype := TxType.expense, month := 6 } ]

/-- C6: the monthly output array always has exactly twelve entries in
order Jan through Dec; each entry's income and expense are the sums, by
the transaction's own calendar month, over the fetched year transactions;
and the spec's scenario (income 500 in March, expense 200 in July) yields
exactly those two non-zero cells. -/
theorem C6_monthly_buckets :
    (∀ ts : List DatedTx,
      (monthlyArray ts).length = 12
      ∧ (monthlyArray ts).map (fun d => d.month) = monthNames
      ∧ monthlyArray ts = (List.finRange 12).map
          (fun i => { month := monthName i
                      income := sumIncomeInMonth ts i
                      expense := sumExpenseInMonth ts i }))
    ∧ monthlyArray marchJulyTxs =
        [ { month := "Jan", income := 0, expense := 0 }
        , { month := "Feb", income := 0, expense := 0 }
        , { month := "Mar", income := 500, expense := 0 }
        , { month := "Apr", income := 0, expense := 0 }
        , { month := "May", income := 0, expense := 0 }
        , { month := "Jun", income := 0, expense := 0 }
        , { month := "Jul", income := 0, expense := 200 }
        , { month := "Aug", income := 0, expense := 0 }
        , { month := "Sep", income := 0, expense := 0 }
        , { month := "Oct", income := 0, expense := 0 }
        , { month := "Nov", income := 0, expense := 0 }
        , { month := "Dec", income := 0, expense := 0 } ] := by
  have harr : ∀ ts : List DatedTx, monthlyArray ts = (List.finRange 12).map
      (fun i => { month := monthName i
                  income := sumIncomeInMonth ts i
                  expense := sumExpenseInMonth ts i }) := by
    intro ts
    unfold monthlyArray
    rw [monthNames_eq_map, List.map_map]
    apply List.map_congr_left
    intro i _
    have hinc : ((monthlyMap ts (monthName i)).map (fun v => v.1)).getD 0
        = sumIncomeInMonth ts i := by
      show incomeAt (monthlyMap ts) (monthName i) = sumIncomeInMonth ts i
      unfold monthlyMap sumIncomeInMonth
      rw [incomeAt_foldl]
      have : (fun t : DatedTx => t.ttype == TxType.income && monthName t.month == monthName i)
          = (fun t : DatedTx => t.ttype == TxType.income && t.month == i) := by
        funext t
        rw [monthName_beq t.month i]
      rw [this]
      simp [incomeAt]
    have hexp : ((monthlyMap ts (monthName i)).map (fun v => v.2)).getD 0
        = sumExpenseInMonth ts i := by
      show expenseAt (monthlyMap ts) (monthName i) = sumExpenseInMonth ts i
      unfold monthlyMap sumExpenseInMonth
      rw [expenseAt_foldl]
      have : (fun t : DatedTx => t.ttype == TxType.expense && monthName t.month == monthName i)
          = (fun t : DatedTx => t.ttype == TxType.expense && t.month == i) := by
        funext t
        rw [monthName_beq t.month i]
      rw [this]
      simp [expenseAt]
    simp [Function.comp, hinc, hexp]
  refine ⟨fun ts => ⟨?_, ?_, harr ts⟩, ?_⟩
  · rw [harr ts]
    simp
  · rw [harr ts]
    rw [monthNames_eq_map, List.map_map]
    rfl
  · have hMar : monthName (2 : Fin 12) = "Mar" := by decide
    have hJul : monthName (6 : Fin 12) = "Jul" := by decide
    simp only [monthlyArray, monthlyMap, marchJulyTxs, List.foldl_cons, List.foldl_nil]
    simp [stepMonthly, hMar, hJul, monthNames]

theorem insertDesc_perm (x : CategorySpending) (l : List CategorySpending) :
    (insertDesc x l).Perm (x :: l) := by
  induction l with
  | nil => exact List.Perm.refl _
  | cons y ys ih =>
    unfold insertDesc
    split
    · exact List.Perm.refl _
    · exact (List.Perm.cons y ih).trans (List.Perm.swap x y ys)

theorem sortDesc_perm (l : List CategorySpending) : (sortDesc l).Perm l := by
  induction l with
  | nil => exact List.Perm.refl _
  | cons x xs ih =>
    exact (insertDesc_perm x (sortDesc xs)).trans (List.Perm.cons x ih)

theorem mem_insertDesc {z x : CategorySpending} {l : List CategorySpending} :
    z ∈ insertDesc x l ↔ z = x ∨ z ∈ l := by
  rw [(insertDesc_perm x l).mem_iff, List.mem_cons]

theorem pairwise_insertDesc {x : CategorySpending} {l : List CategorySpending}
    (h : l.Pairwise (fun a b => b.amount ≤ a.amount)) :
    (insertDesc x l).Pairwise (fun a b => b.amount ≤ a.amount) := by
  induction l with
  | nil => simp [insertDesc]
  | cons y ys ih =>
    rw [List.pairwise_cons] at h
    obtain ⟨hy, hys⟩ := h
    unfold insertDesc
    split_ifs with hle
    · rw [List.pairwise_cons]
      refine ⟨?_, List.pairwise_cons.mpr ⟨hy, hys⟩⟩
      intro z hz
      rcases List.mem_cons.mp hz with rfl | hz
      · exact hle
      · exact (hy z hz).trans hle
    · rw [List.pairwise_cons]
      refine ⟨?_, ih hys⟩
      intro z hz
      rcases mem_insertDesc.mp hz with rfl | hz
      · exact le_of_not_le hle
      · exact hy z hz

theorem sortDesc_pairwise (l : List CategorySpending) :
    (sortDesc l).Pairwise (fun a b => b.amount ≤ a.amount) := by
  induction l with
  | nil => simp [sortDesc]
  | cons x xs ih => exact pairwise_insertDesc ih

theorem filter_insertDesc (x : CategorySpending) (l : List CategorySpending) (q : ℚ) :
    (insertDesc x l).filter (fun e => e.amount == q)
      = if x.amount = q then x :: l.filter (fun e => e.amount == q)
        else l.filter (fun e => e.amount == q) := by
  induction l with
  | nil =>
    by_cases hx : x.amount = q <;> simp [insertDesc, List.filter_cons, hx]
  | cons y ys ih =>
    by_cases hle : y.amount ≤ x.amount
    · have hstep : insertDesc x (y :: ys) = x :: y :: ys := by
        unfold insertDesc
        rw [if_pos hle]
      rw [hstep, List.filter_cons]
      by_cases hx : x.amount = q <;> simp [hx]
    · have hstep : insertDesc x (y :: ys) = y :: insertDesc x ys := by
        simp only [insertDesc]
        rw [if_neg hle]
      rw [hstep, List.filter_cons, ih]
      by_cases hx : x.amount = q
      · have hyq : (y.amount == q) = false := by
          have hlt : x.amount < y.amount := lt_of_not_le hle
          rw [hx] at hlt
          exact beq_eq_false_iff_ne.mpr (ne_of_gt hlt)
        simp [hx, hyq, List.filter_cons]
      · simp [hx, List.filter_cons]

theorem sortDesc_filter (l : List CategorySpending) (q : ℚ) :
    (sortDesc l).filter (fun e => e.amount == q) = l.filter (fun e => e.amount == q) := by
  induction l with
  | nil => rfl
  | cons x xs ih =>
    show (insertDesc x (sortDesc xs)).filter _ = _
    rw [filter_insertDesc]
    by_cases hx : x.amount = q <;> simp [hx, ih, List.filter_cons]

/-- The keys of a category map, in insertion order. -/
def keys (m : List (String × ℚ × String)) : List String :=
  m.map (fun e => e.1)

/-- The total of the per-group sums of a category map. -/
def mapAmtSum (m : List (String × ℚ × String)) : ℚ :=
  (m.map (fun e => e.2.1)).sum

theorem any_eq_mem (m : List (String × ℚ × String)) (k : String) :
    (m.any (fun e => e.1 == k)) = true ↔ k ∈ keys m := by
  rw [List.any_eq_true]
  constructor
  · rintro ⟨e, he, hek⟩
    exact List.mem_map.mpr ⟨e, he, beq_iff_eq.mp hek⟩
  · intro hk
    obtain ⟨e, he, hek⟩ := List.mem_map.mp hk
    exact ⟨e, he, beq_iff_eq.mpr hek⟩

theorem keys_map_upd (m : List (String × ℚ × String)) (k : String) (amt : ℚ) :
    keys (m.map (fun e => if e.1 == k then (e.1, e.2.1 + amt, e.2.2) else e)) = keys m := by
  unfold keys
  rw [List.map_map]
  apply List.map_congr_left
  intro e _
  by_cases he : e.1 = k <;> simp [he]

theorem keys_addToMap_mem (m : List (String × ℚ × String)) (k : String) (amt : ℚ) (c : String)
    (h : k ∈ keys m) : keys (addToMap m k amt c) = keys m := by
  unfold addToMap
  rw [if_pos ((any_eq_mem m k).mpr h)]
  exact keys_map_upd m k amt

theorem keys_addToMap_not_mem (m : List (String × ℚ × String)) (k : String) (amt : ℚ) (c : String)
    (h : k ∉ keys m) : keys (addToMap m k amt c) = keys m ++ [k] := by
  unfold addToMap
  rw [if_neg (fun hc => h ((any_eq_mem m k).mp hc))]
  simp [keys]

theorem nodup_keys_addToMap (m : List (String × ℚ × String)) (k : String) (amt : ℚ) (c : String)
    (h : (keys m).Nodup) : (keys (addToMap m k amt c)).Nodup := by
  by_cases hk : k ∈ keys m
  · rw [keys_addToMap_mem m k amt c hk]
    exact h
  · rw [keys_addToMap_not_mem m k amt c hk]
    exact h.append (List.nodup_singleton k) (by simpa using hk)

theorem mapAmtSum_cons (e : String × ℚ × String) (m : List (String × ℚ × String)) :
    mapAmtSum (e :: m) = e.2.1 + mapAmtSum m := by
  simp [mapAmtSum]

theorem mapAmtSum_map_upd (m : List (String × ℚ × String)) (k : String) (amt : ℚ)
    (hnd : (keys m).Nodup) (hmem : k ∈ keys m) :
    mapAmtSum (m.map (fun e => if e.1 == k then (e.1, e.2.1 + amt, e.2.2) else e))
      = mapAmtSum m + amt := by
  induction m with
  | nil => simp [keys] at hmem
  | cons e m ih =>
    have hnd' : (keys m).Nodup := by
      have := hnd
      simp only [keys, List.map_cons, List.nodup_cons] at this
      exact this.2
    have he_nin : e.1 ∉ keys m := by
      have := hnd
      simp only [keys, List.map_cons, List.nodup_cons] at this
      simpa [keys] using this.1
    rw [List.map_cons]
    by_cases he : e.1 = k
    · have hmap : m.map (fun f => if f.1 == k then (f.1, f.2.1 + amt, f.2.2) else f)
          = m.map id := by
        apply List.map_congr_left
        intro f hf
        have hfk : (f.1 == k) = false := by
          refine beq_eq_false_iff_ne.mpr ?_
          intro hfe
          exact he_nin (by rw [he, ← hfe]; exact List.mem_map_of_mem _ hf)
        rw [hfk]
        rfl
      rw [hmap, List.map_id]
      rw [show (e.1 == k) = true from beq_iff_eq.mpr he, if_pos rfl]
      rw [mapAmtSum_cons, mapAmtSum_cons]
      ring
    · have hmem' : k ∈ keys m := by
        rcases (by simpa [keys] using hmem : k = e.1 ∨ k ∈ keys m) with h | h
        · exact absurd h.symm he
        · exact h
      rw [show (e.1 == k) = false from beq_eq_false_iff_ne.mpr he]
      rw [if_neg (by simp)]
      rw [mapAmtSum_cons, mapAmtSum_cons, ih hnd' hmem']
      ring

theorem mapAmtSum_addToMap (m : List (String × ℚ × String)) (k : String) (amt : ℚ) (c : String)
    (hnd : (keys m).Nodup) : mapAmtSum (addToMap m k amt c) = mapAmtSum m + amt := by
  by_cases hk : k ∈ keys m
  · rw [addToMap, if_pos ((any_eq_mem m k).mpr hk)]
    exact mapAmtSum_map_upd m k amt hnd hk
  · rw [addToMap, if_neg (fun hc => hk ((any_eq_mem m k).mp hc))]
    simp [mapAmtSum]

theorem nodup_keys_catStep (m : List (String × ℚ × String)) (t : RawTx)
    (hnd : (keys m).Nodup) : (keys (catStep m t)).Nodup := by
  unfold catStep
  rcases t.category with _ | c
  · exact hnd
  · exact nodup_keys_addToMap m (catName c) t.amount (catColor c) hnd

theorem nodup_keys_foldl (l : List RawTx) (m : List (String × ℚ × String))
    (hnd : (keys m).Nodup) : (keys (l.foldl catStep m)).Nodup := by
  induction l generalizing m with
  | nil => exact hnd
  | cons t l ih => exact ih _ (nodup_keys_catStep m t hnd)

theorem mapAmtSum_foldl (l : List RawTx) (m : List (String × ℚ × String))
    (hsome : ∀ t ∈ l, t.category.isSome = true) (hnd : (keys m).Nodup) :
    mapAmtSum (l.foldl catStep m) = mapAmtSum m + (l.map (fun t => t.amount)).sum := by
  induction l generalizing m with
  | nil => simp
  | cons t l ih =>
    rcases ho : t.category with _ | c
    · have := hsome t (by simp)
      rw [ho] at this
      simp at this
    · rw [List.foldl_cons, ih _ (fun u hu => hsome u (by simp [hu])) (nodup_keys_catStep m t hnd)]
      have hstep : mapAmtSum (catStep m t) = mapAmtSum m + t.amount := by
        unfold catStep
        rw [ho]
        exact mapAmtSum_addToMap m (catName c) t.amount (catColor c) hnd
      rw [hstep]
      simp [List.map_cons, List.sum_cons]
      ring

theorem keys_catStep_superset (m : List (String × ℚ × String)) (t : RawTx) (k : String)
    (h : k ∈ keys m) : k ∈ keys (catStep m t) := by
  unfold catStep
  rcases t.category with _ | c
  · exact h
  · by_cases hc : catName c ∈ keys m
    · rw [keys_addToMap_mem _ _ _ _ hc]
      exact h
    · rw [keys_addToMap_not_mem _ _ _ _ hc]
      exact List.mem_append_left _ h

theorem keys_foldl_superset (l : List RawTx) (m : List (String × ℚ × String)) (k : String)
    (h : k ∈ keys m) : k ∈ keys (l.foldl catStep m) := by
  induction l generalizing m with
  | nil => exact h
  | cons t l ih => exact ih _ (keys_catStep_superset m t k h)

theorem mem_keys_foldl_of_mem (l : List RawTx) (m : List (String × ℚ × String))
    (t : RawTx) (c : CatRef) (ht : t ∈ l) (hc : t.category = some c) :
    catName c ∈ keys (l.foldl catStep m) := by
  induction l generalizing m with
  | nil => cases ht
  | cons u l ih =>
    rw [List.foldl_cons]
    rcases List.mem_cons.mp ht with rfl | ht'
    · apply keys_foldl_superset
      unfold catStep
      rw [hc]
      by_cases hk : catName c ∈ keys m
      · rw [keys_addToMap_mem _ _ _ _ hk]
        exact hk
      · rw [keys_addToMap_not_mem _ _ _ _ hk]
        simp
    · exact ih _ ht'

theorem keys_categoryMap_nodup (ts : List RawTx) : (keys (categoryMap ts)).Nodup := by
  unfold categoryMap
  exact nodup_keys_foldl _ _ (by simp [keys])

theorem mapAmtSum_categoryMap (ts : List RawTx) :
    mapAmtSum (categoryMap ts) = ((ts.filter inBreakdown).map (fun t => t.amount)).sum := by
  unfold categoryMap
  rw [mapAmtSum_foldl _ _ ?_ (by simp [keys])]
  · simp [mapAmtSum]
  · intro t ht
    have hb := (List.mem_filter.mp ht).2
    rw [inBreakdown, Bool.and_eq_true] at hb
    exact hb.2

theorem mem_keys_categoryMap (ts : List RawTx) (t : RawTx) (c : CatRef)
    (ht : t ∈ ts) (hexp : t.ttype = TxType.expense) (hc : t.category = some c) :
    catName c ∈ keys (categoryMap ts) := by
  unfold categoryMap
  refine mem_keys_foldl_of_mem _ _ t c ?_ hc
  rw [List.mem_filter]
  refine ⟨ht, ?_⟩
  simp [inBreakdown, hexp, hc]

theorem exists_group (ts : List RawTx) (k : String) (h : k ∈ keys (categoryMap ts)) :
    ∃ g ∈ categoryArray ts, g.category = k := by
  rw [keys, List.mem_map] at h
  obtain ⟨e, he, hek⟩ := h
  refine ⟨{ category := e.1, amount := e.2.1, color := e.2.2
            percentage := if totalExpense ts > 0 then e.2.1 / totalExpense ts * 100 else 0 },
    ?_, hek⟩
  rw [categoryArray, (sortDesc_perm _).mem_iff]
  unfold categoryArrayUnsorted
  exact List.mem_map_of_mem _ he

theorem categoryMap_filter_isSome (ts : List RawTx) :
    categoryMap ts = categoryMap (ts.filter (fun t => t.category.isSome)) := by
  unfold categoryMap
  rw [List.filter_filter]
  congr 1
  apply List.filter_congr
  intro t _
  unfold inBreakdown
  cases hb : t.category.isSome <;> simp [hb]

theorem sum_percentage (ts : List RawTx) (hE : 0 < totalExpense ts) :
    ((categoryArrayUnsorted ts).map (fun g => g.percentage)).sum
      = mapAmtSum (categoryMap ts) / totalExpense ts * 100 := by
  unfold categoryArrayUnsorted
  rw [List.map_map]
  have hcomp : ((fun g : CategorySpending => g.percentage) ∘ fun e : String × ℚ × String =>
      ({ category := e.1, amount := e.2.1, color := e.2.2
         percentage := if totalExpense ts > 0 then e.2.1 / totalExpense ts * 100 else 0 } :
        CategorySpending))
      = fun e => e.2.1 / totalExpense ts * 100 := by
    funext e
    simp [Function.comp, if_pos hE]
  rw [hcomp]
  generalize categoryMap ts = l
  induction l with
  | nil => simp [mapAmtSum]
  | cons e l ih =>
    rw [List.map_cons, List.sum_cons, ih, mapAmtSum_cons]
    ring

theorem filter_inBreakdown_of_all (ts : List RawTx)
    (hAll : ∀ t ∈ ts, t.ttype = TxType.expense → t.category.isSome = true) :
    ts.filter inBreakdown = ts.filter (fun t => t.ttype == TxType.expense) := by
  apply List.filter_congr
  intro t ht
  unfold inBreakdown
  by_cases he : t.ttype = TxType.expense
  · simp [he, hAll t ht he]
  · simp [he]

/-- C3 counterexample: a single expense transaction with no category
yields an empty category breakdown — no "Uncategorized" group is formed,
because the grouping loop filters on `t.type === 'expense' && t.category`
and so drops rows whose category join is null. -/
theorem C3_counterexample :
    (({ amount := 50, ttype := TxType.expense, category := none } : RawTx)).ttype
        = TxType.expense
    ∧ categoryArray [{ amount := 50, ttype := TxType.expense, category := none }] = [] :=
  ⟨rfl, rfl⟩

/-- C3 (amended): every expense transaction carrying a category
contributes to a group labelled with that category's display name;
expense transactions with no category are excluded from the breakdown
entirely (the map is unchanged by dropping null-category rows); the
groups are sorted descending by summed amount; and ties retain encounter
order (the sort permutes nothing within any fixed amount value). -/
theorem C3_category_breakdown (ts : List RawTx) :
    (∀ t ∈ ts, t.ttype = TxType.expense → ∀ c, t.category = some c →
      ∃ g ∈ categoryArray ts, g.category = catName c)
    ∧ categoryMap ts = categoryMap (ts.filter (fun t => t.category.isSome))
    ∧ (categoryArray ts).Pairwise (fun a b => b.amount ≤ a.amount)
    ∧ ∀ q : ℚ, (categoryArray ts).filter (fun g => g.amount == q)
        = (categoryArrayUnsorted ts).filter (fun g => g.amount == q) := by
  refine ⟨?_, categoryMap_filter_isSome ts, sortDesc_pairwise _, fun q => sortDesc_filter _ q⟩
  intro t ht hexp c hc
  exact exists_group ts (catName c) (mem_keys_categoryMap ts t c ht hexp hc)

/-- A report row list with a single categorized expense of 50. -/
def demoCatTxs : List RawTx :=
  [{ amount := 50, ttype := TxType.expense
     category := some { name := "Food", color := "#EF4444" } }]

/-- C3 witness: `C3_category_breakdown` on the one-categorized-expense
list produces a group labelled "Food". -/
theorem C3_category_breakdown_witness :
    ∃ g ∈ categoryArray demoCatTxs,
      g.category = catName { name := "Food", color := "#EF4444" } :=
  (C3_category_breakdown demoCatTxs).1
    { amount := 50, ttype := TxType.expense
      category := some { name := "Food", color := "#EF4444" } }
    (by simp [demoCatTxs]) rfl { name := "Food", color := "#EF4444" } rfl

/-- A report row list with a single uncategorized expense of 50. -/
def demoUncatTxs : List RawTx :=
  [{ amount := 50, ttype := TxType.expense, category := none }]

/-- C4 counterexample: with one uncategorized expense of 50 the window has
`totalExpense = 50 > 0`, yet the category percentages sum to 0, not 100 —
the uncategorized row is dropped from the breakdown. -/
theorem C4_counterexample :
    0 < totalExpense demoUncatTxs
    ∧ ((categoryArray demoUncatTxs).map (fun g => g.percentage)).sum = 0 := by
  constructor
  · norm_num [totalExpense, demoUncatTxs, List.filter]
  · rfl

/-- C4 (amended): when `totalExpense > 0` and every expense transaction in
the window carries a category, the breakdown percentages sum to exactly
100; when no expense transactions exist in the window, they sum to 0. -/
theorem C4_percentage_sum (ts : List RawTx) :
    (0 < totalExpense ts →
      (∀ t ∈ ts, t.ttype = TxType.expense → t.category.isSome = true) →
      ((categoryArray ts).map (fun g => g.percentage)).sum = 100)
    ∧ ((∀ t ∈ ts, t.ttype ≠ TxType.expense) →
      ((categoryArray ts).map (fun g => g.percentage)).sum = 0) := by
  constructor
  · intro hE hAll
    have hperm : ((categoryArray ts).map (fun g => g.percentage)).sum
        = ((categoryArrayUnsorted ts).map (fun g => g.percentage)).sum :=
      ((sortDesc_perm (categoryArrayUnsorted ts)).map (fun g => g.percentage)).sum_eq
    rw [hperm, sum_percentage ts hE, mapAmtSum_categoryMap, filter_inBreakdown_of_all ts hAll]
    rw [show ((ts.filter (fun t => t.ttype == TxType.expense)).map (fun t => t.amount)).sum
        = totalExpense ts from rfl]
    rw [div_self (ne_of_gt hE), one_mul]
  · intro hnone
    have hnil : ts.filter inBreakdown = [] := by
      rw [List.filter_eq_nil_iff]
      intro t ht
      simp [inBreakdown, hnone t ht]
    have hcm : categoryMap ts = [] := by
      unfold categoryMap
      rw [hnil]
      rfl
    simp [categoryArray, categoryArrayUnsorted, hcm, sortDesc]

/-- C4 witness: `C4_percentage_sum` on the one-categorized-expense list:
total expense 50 is positive and the single group's percentage sums to
100. -/
theorem C4_percentage_sum_witness :
    0 < totalExpense demoCatTxs
    ∧ ((categoryArray demoCatTxs).map (fun g => g.percentage)).sum = 100 := by
  have hE : 0 < totalExpense demoCatTxs := by
    norm_num [totalExpense, demoCatTxs, List.filter]
  refine ⟨hE, (C4_percentage_sum demoCatTxs).1 hE ?_⟩
  intro t ht _
  simp [demoCatTxs] at ht
  simp [ht]
